import Mathlib

/-!
Verification development for the aihr conversation engine.

The definitions below are shallow embeddings of the Go source:
bytes are modelled as natural numbers, byte slices as lists, channels
carrying a finite stream as lists of the values received in order,
and the blocking select loops as recursive functions over the ordered
list of events they would observe.
-/

/-- One step of the frame-draining loop of the reframing goroutine
(main.go, playTTSResponse: the inner loop sending complete chunks while
the accumulated buffer holds at least chunkSize bytes).  The first
argument is fuel bounding the number of iterations; since every
iteration removes F ≥ 1 bytes from the buffer, fuel equal to the buffer
length always suffices. -/
def emitGo : Nat → Nat → List Nat → List (List Nat) × List Nat
  | 0, _, buf => ([], buf)
  | fuel + 1, F, buf =>
    if 0 < F ∧ F ≤ buf.length then
      (buf.take F :: (emitGo fuel F (buf.drop F)).1, (emitGo fuel F (buf.drop F)).2)
    else ([], buf)

/-- Drain all complete F-byte frames from the buffer, returning the
emitted frames and the carried remainder (main.go, playTTSResponse,
lines 261-268). -/
def emitFull (F : Nat) (buf : List Nat) : List (List Nat) × List Nat :=
  emitGo buf.length F buf

/-- The reframing goroutine of main.go playTTSResponse (lines 229-274)
and of playWelcomeMessage: each received chunk is appended to the
carried buffer, complete F-byte frames are emitted, and when the source
channel closes a non-empty remainder is flushed as a final frame,
zero-padded on the right when it is shorter than F. -/
def reframeLoop (F : Nat) : List Nat → List (List Nat) → List (List Nat)
  | buf, [] =>
    if 0 < buf.length then
      [if buf.length < F then buf ++ List.replicate (F - buf.length) 0 else buf]
    else []
  | buf, c :: cs =>
    (emitFull F (buf ++ c)).1 ++ reframeLoop F (emitFull F (buf ++ c)).2 cs

/-- The complete reframing transformation: a finite stream of input
byte chunks to the finite stream of fixed-size frames delivered to the
playback channel. -/
def reframe (F : Nat) (chunks : List (List Nat)) : List (List Nat) :=
  reframeLoop F [] chunks

theorem emitGo_join (F : Nat) : ∀ (fuel : Nat) (buf : List Nat),
    (emitGo fuel F buf).1.flatten ++ (emitGo fuel F buf).2 = buf := by
  intro fuel
  induction fuel with
  | zero => intro buf; simp [emitGo]
  | succ n ih =>
    intro buf
    simp only [emitGo]
    split
    · rw [List.flatten_cons, List.append_assoc, ih, List.take_append_drop]
    · simp

theorem emitGo_frames (F : Nat) : ∀ (fuel : Nat) (buf : List Nat),
    ∀ f ∈ (emitGo fuel F buf).1, f.length = F := by
  intro fuel
  induction fuel with
  | zero => intro buf f hf; simp [emitGo] at hf
  | succ n ih =>
    intro buf f hf
    simp only [emitGo] at hf
    by_cases h : 0 < F ∧ F ≤ buf.length
    · rw [if_pos h] at hf
      rcases List.mem_cons.mp hf with rfl | hf'
      · simp [List.length_take]
        omega
      · exact ih _ f hf'
    · rw [if_neg h] at hf
      simp at hf

theorem emitGo_rem (F : Nat) (hF : 0 < F) : ∀ (fuel : Nat) (buf : List Nat),
    buf.length ≤ fuel → (emitGo fuel F buf).2.length < F := by
  intro fuel
  induction fuel with
  | zero =>
    intro buf hb
    have : buf.length = 0 := Nat.le_zero.mp hb
    simpa [emitGo, this] using hF
  | succ n ih =>
    intro buf hb
    simp only [emitGo]
    by_cases h : 0 < F ∧ F ≤ buf.length
    · rw [if_pos h]
      exact ih (buf.drop F) (by simp [List.length_drop]; omega)
    · rw [if_neg h]
      simp only
      omega

theorem emitFull_join (F : Nat) (buf : List Nat) :
    (emitFull F buf).1.flatten ++ (emitFull F buf).2 = buf :=
  emitGo_join F buf.length buf

theorem emitFull_frames (F : Nat) (buf : List Nat) :
    ∀ f ∈ (emitFull F buf).1, f.length = F :=
  emitGo_frames F buf.length buf

theorem emitFull_rem (F : Nat) (hF : 0 < F) (buf : List Nat) :
    (emitFull F buf).2.length < F :=
  emitGo_rem F hF buf.length buf le_rfl

theorem join_length_of_frames (F : Nat) : ∀ (l : List (List Nat)),
    (∀ f ∈ l, f.length = F) → l.flatten.length = F * l.length := by
  intro l
  induction l with
  | nil => intro _; simp
  | cons a t ih =>
    intro h
    have ha : a.length = F := h a (List.mem_cons_self a t)
    have ht := ih (fun f hf => h f (List.mem_cons_of_mem a hf))
    simp [List.flatten_cons, ha, ht, Nat.mul_succ, Nat.mul_comm]
    ring

theorem reframeLoop_frames (F : Nat) (hF : 0 < F) : ∀ (cs : List (List Nat)) (buf : List Nat),
    buf.length < F → ∀ f ∈ reframeLoop F buf cs, f.length = F := by
  intro cs
  induction cs with
  | nil =>
    intro buf hb f hf
    simp only [reframeLoop] at hf
    by_cases h : 0 < buf.length
    · rw [if_pos h] at hf
      rcases List.mem_singleton.mp hf with rfl
      rw [if_pos hb]
      simp [List.length_replicate]
      omega
    · rw [if_neg h] at hf
      simp at hf
  | cons c cs ih =>
    intro buf hb f hf
    simp only [reframeLoop] at hf
    rcases List.mem_append.mp hf with hf' | hf'
    · exact emitFull_frames F (buf ++ c) f hf'
    · exact ih (emitFull F (buf ++ c)).2 (emitFull_rem F hF (buf ++ c)) f hf'

theorem reframeLoop_join (F : Nat) (hF : 0 < F) : ∀ (cs : List (List Nat)) (buf : List Nat),
    buf.length < F →
    (reframeLoop F buf cs).flatten =
      (buf ++ cs.flatten) ++ List.replicate ((F - (buf.length + cs.flatten.length) % F) % F) 0 := by
  intro cs
  induction cs with
  | nil =>
    intro buf hb
    simp only [reframeLoop, List.flatten_nil, List.append_nil]
    by_cases h : 0 < buf.length
    · rw [if_pos h, if_pos hb]
      have h1 : buf.length % F = buf.length := Nat.mod_eq_of_lt hb
      have h2 : (F - buf.length) % F = F - buf.length := Nat.mod_eq_of_lt (by omega)
      simp [h1, h2]
    · have hb0 : buf.length = 0 := by omega
      have : buf = [] := List.length_eq_zero.mp hb0
      subst this
      simp [Nat.mod_self]
  | cons c cs ih =>
    intro buf hb
    have hrem : (emitFull F (buf ++ c)).2.length < F := emitFull_rem F hF (buf ++ c)
    have hjoin := emitFull_join F (buf ++ c)
    have hflen : (emitFull F (buf ++ c)).1.flatten.length = F * (emitFull F (buf ++ c)).1.length :=
      join_length_of_frames F _ (emitFull_frames F (buf ++ c))
    simp only [reframeLoop, List.flatten_append, List.flatten_cons]
    rw [ih _ hrem]
    have hmod : ((emitFull F (buf ++ c)).2.length + cs.flatten.length) % F
        = (buf.length + (c.length + cs.flatten.length)) % F := by
      have hlen : (emitFull F (buf ++ c)).1.flatten.length + (emitFull F (buf ++ c)).2.length
          = buf.length + c.length := by
        have := congrArg List.length hjoin
        simpa [List.length_append] using this
      have : (emitFull F (buf ++ c)).2.length + cs.flatten.length + F * (emitFull F (buf ++ c)).1.length
          = buf.length + (c.length + cs.flatten.length) := by omega
      calc ((emitFull F (buf ++ c)).2.length + cs.flatten.length) % F
          = ((emitFull F (buf ++ c)).2.length + cs.flatten.length + F * (emitFull F (buf ++ c)).1.length) % F := by
            rw [Nat.add_mul_mod_self_left]
        _ = (buf.length + (c.length + cs.flatten.length)) % F := by rw [this]
    rw [hmod, ← List.append_assoc, ← List.append_assoc, hjoin]
    simp [List.append_assoc]

theorem reframe_frames (F : Nat) (hF : 0 < F) (chunks : List (List Nat)) :
    ∀ f ∈ reframe F chunks, f.length = F :=
  reframeLoop_frames F hF chunks [] (by simpa using hF)

theorem reframe_join (F : Nat) (hF : 0 < F) (chunks : List (List Nat)) :
    (reframe F chunks).flatten =
      chunks.flatten ++ List.replicate ((F - chunks.flatten.length % F) % F) 0 := by
  have := reframeLoop_join F hF chunks [] (by simpa using hF)
  simpa [reframe] using this

theorem reframe_count (F : Nat) (hF : 0 < F) (chunks : List (List Nat))
    (hmul : chunks.flatten.length % F = 0) :
    (reframe F chunks).length = chunks.flatten.length / F ∧
    (reframe F chunks).flatten = chunks.flatten := by
  have hjoin := reframe_join F hF chunks
  have hpad : (F - chunks.flatten.length % F) % F = 0 := by
    rw [hmul]
    simp [Nat.mod_self]
  rw [hpad] at hjoin
  simp only [List.replicate_zero, List.append_nil] at hjoin
  refine ⟨?_, hjoin⟩
  have hflen : (reframe F chunks).flatten.length = F * (reframe F chunks).length :=
    join_length_of_frames F _ (reframe_frames F hF chunks)
  rw [hjoin] at hflen
  rw [hflen, Nat.mul_div_cancel_left _ hF]

theorem reframe_nil (F : Nat) (hF : 0 < F) (chunks : List (List Nat))
    (hempty : chunks.flatten = []) :
    reframe F chunks = [] := by
  have hjoin := reframe_join F hF chunks
  rw [hempty] at hjoin
  simp [Nat.mod_self] at hjoin
  cases hr : reframe F chunks with
  | nil => rfl
  | cons f fs =>
    exfalso
    have hfl : f.length = F := reframe_frames F hF chunks f (by rw [hr]; exact List.mem_cons_self f fs)
    rw [hr] at hjoin
    have hfe : f = [] := hjoin f (List.mem_cons_self f fs)
    rw [hfe] at hfl
    simp at hfl
    omega

/-- Claim C1: for every finite sequence of input byte chunks and frame
size F > 0, the reframing transformation emits frames of exactly F bytes
each, in input order, whose concatenation is the input concatenation
right-padded with zero bytes to the next multiple of F; when the total
input length is a multiple of F it emits exactly total/F frames with no
padding, and when the total input is empty it emits no frames at all. -/
theorem c1_reframer_spec (F : Nat) (hF : 0 < F) (chunks : List (List Nat)) :
    (∀ f ∈ reframe F chunks, f.length = F) ∧
    (reframe F chunks).flatten =
      chunks.flatten ++ List.replicate ((F - chunks.flatten.length % F) % F) 0 ∧
    (chunks.flatten.length % F = 0 →
      (reframe F chunks).length = chunks.flatten.length / F ∧
      (reframe F chunks).flatten = chunks.flatten) ∧
    (chunks.flatten = [] → reframe F chunks = []) :=
  ⟨reframe_frames F hF chunks, reframe_join F hF chunks,
   fun hmul => reframe_count F hF chunks hmul,
   fun hempty => reframe_nil F hF chunks hempty⟩

/-- Witness for c1_reframer_spec at the spec's own scenario: frame size
4, input chunks [[1,2,3],[4,5]] give frames [1,2,3,4] and [5,0,0,0]. -/
theorem c1_reframer_spec_witness :
    reframe 4 [[1, 2, 3], [4, 5]] = [[1, 2, 3, 4], [5, 0, 0, 0]] ∧
    (∀ f ∈ reframe 4 [[1, 2, 3], [4, 5]], f.length = 4) :=
  ⟨by decide, (c1_reframer_spec 4 (by decide) [[1, 2, 3], [4, 5]]).1⟩

/-- The chunk flow of the Engine speak step (engine.go, speakResponse,
lines 233-256): the byte-chunk stream produced by the synthesis client
on the audioData channel is handed to soundPlayer.PlayStream unchanged;
no reframing stage sits between them, so the playback collaborator
receives exactly the chunks the synthesizer emitted. -/
def speakResponseChunks (ttsChunks : List (List Nat)) : List (List Nat) :=
  ttsChunks

/-- Claim C2 evaluated at a failing input: with the configured frame
size 2048 frames x 2 bytes x 1 channel = 4096 bytes, a synthesis stream
consisting of one 3-byte chunk reaches the playback collaborator as that
same 3-byte chunk, not as a 4096-byte frame; the reframing
transformation the claim describes would instead have produced only
4096-byte frames. -/
theorem c2_speak_not_reframed :
    speakResponseChunks [[1, 2, 3]] = [[1, 2, 3]] ∧
    ¬ (∀ c ∈ speakResponseChunks [[1, 2, 3]], c.length = 2048 * 2 * 1) ∧
    (∀ c ∈ reframe (2048 * 2 * 1) [[1, 2, 3]], c.length = 2048 * 2 * 1) :=
  ⟨rfl, by decide, reframe_frames (2048 * 2 * 1) (by norm_num) [[1, 2, 3]]⟩

/-- The events the select loop of captureUserInput (engine.go, lines
200-223) can observe: the outer context being cancelled, a value
arriving on the sttResults channel, that channel closing, and the
silence timer firing. -/
inductive CaptureEvent
  | ctxDone
  | fragment (s : String)
  | chanClosed
  | timerFire
deriving DecidableEq

/-- What captureUserInput returns and which cancellations were issued
by the time it returned (the deferred captureCancel and sttCancel run on
every return path; the timer-expiry branch additionally calls them
explicitly). -/
structure CaptureResult where
  text : String
  isErr : Bool
  captureCancelled : Bool
  sttCancelled : Bool
deriving DecidableEq

/-- One iteration of the select loop of captureUserInput: the state is
the accumulated transcription and the duration the silence timer is
currently set to.  A non-empty fragment is appended together with a
single space and the timer is reset to the configured silence timeout;
an empty fragment is ignored; ctx.Done returns the empty string with
ctx.Err; channel closure and timer expiry return the accumulated text
with a nil error. -/
def captureStep (silenceTimeout : Nat) (acc : String) (timer : Nat) :
    CaptureEvent → (String × Nat) ⊕ CaptureResult
  | .ctxDone => .inr ⟨"", true, true, true⟩
  | .chanClosed => .inr ⟨acc, false, true, true⟩
  | .timerFire => .inr ⟨acc, false, true, true⟩
  | .fragment s => if s = "" then .inl (acc, timer) else .inl (acc ++ s ++ " ", silenceTimeout)

/-- Run the select loop over the ordered list of observed events.
Returns none when the event list is exhausted without a terminating
event (the loop would still be blocked). -/
def captureRun (silenceTimeout : Nat) : List CaptureEvent → String → Nat → Option CaptureResult
  | [], _, _ => none
  | e :: es, acc, timer =>
    match captureStep silenceTimeout acc timer e with
    | .inl (acc2, timer2) => captureRun silenceTimeout es acc2 timer2
    | .inr r => some r

/-- captureUserInput (engine.go, lines 168-224): the accumulator starts
empty and the silence timer starts at the configured timeout. -/
def captureUserInput (silenceTimeout : Nat) (events : List CaptureEvent) : Option CaptureResult :=
  captureRun silenceTimeout events "" silenceTimeout

/-- The text accumulated from a list of recognized fragments: the
non-empty ones in arrival order, each followed by a single space. -/
def accumulatedText : List String → String
  | [] => ""
  | s :: ss => if s = "" then accumulatedText ss else s ++ " " ++ accumulatedText ss

theorem captureRun_fragments_timer (silenceTimeout : Nat) :
    ∀ (frags : List String) (acc : String) (timer : Nat),
    captureRun silenceTimeout (frags.map CaptureEvent.fragment ++ [CaptureEvent.timerFire]) acc timer
      = some ⟨acc ++ accumulatedText frags, false, true, true⟩ := by
  intro frags
  induction frags with
  | nil =>
    intro acc timer
    simp [captureRun, captureStep, accumulatedText]
  | cons s ss ih =>
    intro acc timer
    by_cases hs : s = ""
    · simp [captureRun, captureStep, hs, ih acc timer, accumulatedText]
    · have h := ih (acc ++ (s ++ " ")) silenceTimeout
      simp only [String.append_assoc] at h
      simp [captureRun, captureStep, hs, h, accumulatedText, String.append_assoc]

/-- Claim C3: every non-empty recognized fragment is appended to the
accumulated text followed by a single space and resets the silence
timer to the configured silenceTimeout; empty fragments are ignored;
when the timer expires, cancellation is issued to both capture and
recognition and the accumulated text (fragments in arrival order, each
followed by a space) is returned with a nil error — an empty
accumulated text is also returned as success. -/
theorem c3_capture_silence (silenceTimeout : Nat) (acc : String) (timer : Nat) (s : String)
    (frags : List String) :
    (s ≠ "" → captureStep silenceTimeout acc timer (.fragment s)
      = .inl (acc ++ s ++ " ", silenceTimeout)) ∧
    (captureStep silenceTimeout acc timer (.fragment "") = .inl (acc, timer)) ∧
    (captureStep silenceTimeout acc timer .timerFire = .inr ⟨acc, false, true, true⟩) ∧
    (captureUserInput silenceTimeout (frags.map CaptureEvent.fragment ++ [CaptureEvent.timerFire])
      = some ⟨accumulatedText frags, false, true, true⟩) := by
  refine ⟨fun hs => ?_, rfl, rfl, ?_⟩
  · simp [captureStep, hs]
  · have h := captureRun_fragments_timer silenceTimeout frags "" silenceTimeout
    simpa [captureUserInput] using h

/-- Witness for c3_capture_silence: with timeout 3 and fragments
"hello", "", "world" followed by timer expiry, capture returns
"hello world " with no error and both cancellations issued; an empty
fragment leaves the state untouched. -/
theorem c3_capture_silence_witness :
    captureStep 3 "" 1 (.fragment "hello") = .inl ("" ++ "hello" ++ " ", 3) ∧
    captureUserInput 3 [.fragment "hello", .fragment "", .fragment "world", .timerFire]
      = some ⟨"hello world ", false, true, true⟩ ∧
    captureUserInput 3 [.timerFire] = some ⟨"", false, true, true⟩ := by
  refine ⟨(c3_capture_silence 3 "" 1 "hello" []).1 (by decide), ?_, by decide⟩
  have h := (c3_capture_silence 3 "" 1 "x" ["hello", "", "world"]).2.2.2
  have ha : accumulatedText ["hello", "", "world"] = "hello world " := by decide
  rw [ha] at h
  exact h

/-- A conversation history entry (engine.go, ConversationEntry); the
timestamp is modelled as a natural number. -/
structure ConversationEntry where
  userInput : String
  aiResponse : String
  timestamp : Nat
deriving DecidableEq

/-- addToHistory (engine.go, lines 282-293): append the entry at the
tail and, when the length exceeds maxHistorySize, keep only the last
maxHistorySize entries. -/
def addToHistory (maxHistorySize : Nat) (history : List ConversationEntry)
    (entry : ConversationEntry) : List ConversationEntry :=
  let h := history ++ [entry]
  if maxHistorySize < h.length then h.drop (h.length - maxHistorySize) else h

/-- A sequence of addToHistory calls starting from a given history. -/
def appendAll (maxHistorySize : Nat) (history : List ConversationEntry)
    (entries : List ConversationEntry) : List ConversationEntry :=
  entries.foldl (addToHistory maxHistorySize) history

theorem addToHistory_eq (C : Nat) (h : List ConversationEntry) (e : ConversationEntry) :
    addToHistory C h e =
      if C < h.length + 1 then (h ++ [e]).drop (h.length + 1 - C) else h ++ [e] := by
  simp [addToHistory]

theorem appendAll_drop (C : Nat) : ∀ (es : List ConversationEntry) (h : List ConversationEntry),
    h.length ≤ C → appendAll C h es = (h ++ es).drop (h.length + es.length - C) := by
  intro es
  induction es with
  | nil =>
    intro h hl
    have hz : h.length + List.length ([] : List ConversationEntry) - C = 0 := by
      simp
      omega
    simp only [appendAll, List.foldl_nil, List.append_nil, hz, List.drop_zero]
  | cons e es ih =>
    intro h hl
    have step : appendAll C h (e :: es) = appendAll C (addToHistory C h e) es := rfl
    rw [step]
    by_cases hc : C < h.length + 1
    · have hC : h.length = C := by omega
      have hadd : addToHistory C h e = (h ++ [e]).drop 1 := by
        rw [addToHistory_eq, if_pos hc]
        congr 1
        omega
      have hlen2 : ((h ++ [e]).drop 1).length = C := by
        simp [List.length_drop]
        omega
      rw [hadd, ih _ (le_of_eq hlen2), hlen2]
      rw [show C + es.length - C = es.length from by omega]
      rw [← List.drop_append_of_le_length (by simp : 1 ≤ (h ++ [e]).length)]
      rw [List.drop_drop]
      rw [show h ++ [e] ++ es = h ++ e :: es from by simp]
      congr 1
      simp
      omega
    · have hadd : addToHistory C h e = h ++ [e] := by
        rw [addToHistory_eq, if_neg hc]
      have hl2 : (h ++ [e]).length ≤ C := by
        simp
        omega
      rw [hadd, ih _ hl2]
      rw [show h ++ [e] ++ es = h ++ e :: es from by simp]
      congr 1
      simp
      omega

/-- Claim C4: for capacity C ≥ 1 the history length never exceeds C
after any sequence of appends starting from the empty history; an
append with room left simply adds at the tail; after more than C
appends exactly the C most recent entries remain, in insertion order,
oldest evicted first. -/
theorem c4_history_bound (C : Nat) (hC : 1 ≤ C) (es : List ConversationEntry) :
    appendAll C [] es = es.drop (es.length - C) ∧
    (appendAll C [] es).length ≤ C ∧
    (C < es.length → (appendAll C [] es).length = C) ∧
    (∀ (h : List ConversationEntry) (e : ConversationEntry),
      h.length < C → addToHistory C h e = h ++ [e]) := by
  have hmain : appendAll C [] es = es.drop (es.length - C) := by
    have := appendAll_drop C es [] (by simp)
    simpa using this
  refine ⟨hmain, ?_, ?_, ?_⟩
  · rw [hmain]
    simp [List.length_drop]
    omega
  · intro hlt
    rw [hmain]
    simp [List.length_drop]
    omega
  · intro h e hlt
    rw [addToHistory_eq, if_neg (by omega)]

/-- Witness for c4_history_bound at the spec's scenario: capacity 2,
appending A, B, C leaves exactly the two most recent entries, in
order. -/
theorem c4_history_bound_witness :
    appendAll 2 [] [⟨"a", "ra", 0⟩, ⟨"b", "rb", 1⟩, ⟨"c", "rc", 2⟩]
      = [⟨"b", "rb", 1⟩, ⟨"c", "rc", 2⟩] ∧
    (appendAll 2 [] [⟨"a", "ra", 0⟩, ⟨"b", "rb", 1⟩, ⟨"c", "rc", 2⟩]).length = 2 := by
  have h := c4_history_bound 2 (by decide) [⟨"a", "ra", 0⟩, ⟨"b", "rb", 1⟩, ⟨"c", "rc", 2⟩]
  refine ⟨?_, h.2.2.1 (by decide)⟩
  rw [h.1]
  decide

/-- The set of whitespace code points recognized by Go's
unicode.IsSpace, used by strings.TrimSpace. -/
def goIsSpace (c : Char) : Bool :=
  c.val = 0x09 ∨ c.val = 0x0A ∨ c.val = 0x0B ∨ c.val = 0x0C ∨ c.val = 0x0D ∨
  c.val = 0x20 ∨ c.val = 0x85 ∨ c.val = 0xA0 ∨ c.val = 0x1680 ∨
  (0x2000 ≤ c.val ∧ c.val ≤ 0x200A) ∨ c.val = 0x2028 ∨ c.val = 0x2029 ∨
  c.val = 0x202F ∨ c.val = 0x205F ∨ c.val = 0x3000

/-- Model of strings.TrimSpace: drop the whitespace characters from
both ends of the string. -/
def trimSpace (s : String) : String :=
  ⟨((s.data.dropWhile goIsSpace).reverse.dropWhile goIsSpace).reverse⟩

/-- The observable outcome of one conversation cycle: the resulting
history, the error returned (none for success), and whether the
reply-generation and speak collaborators were invoked. -/
structure CycleResult where
  history : List ConversationEntry
  err : Option String
  generateCalled : Bool
  speakCalled : Bool
deriving DecidableEq

/-- processConversationCycle (engine.go, lines 131-166): capture the
utterance; skip the turn when it trims to the empty string; otherwise
generate a reply, speak it, and only then append the entry to the
history.  The collaborator outcomes for this turn are passed in as
values: the captured text or its error, the reply generator as a
function of the utterance, and the speak outcome. -/
def processConversationCycle (maxHistorySize : Nat) (history : List ConversationEntry)
    (capture : Except String String) (generate : String → Except String String)
    (speak : Except String Unit) (now : Nat) : CycleResult :=
  match capture with
  | .error e => ⟨history, some ("failed to capture user input: " ++ e), false, false⟩
  | .ok userInput =>
    if trimSpace userInput = "" then ⟨history, none, false, false⟩
    else
      match generate userInput with
      | .error e => ⟨history, some ("failed to generate AI response: " ++ e), true, false⟩
      | .ok aiResponse =>
        match speak with
        | .error e =>
          ⟨history, some ("failed to speak response: " ++ e), true, true⟩
        | .ok _ =>
          ⟨addToHistory maxHistorySize history ⟨userInput, aiResponse, now⟩, none, true, true⟩

/-- The per-turn inputs observed by one iteration of the Start loop:
whether the outer context was already done at the select, the
collaborator outcomes of the cycle, whether ctx.Err() was non-nil when
re-checked after a cycle error, and the timestamp. -/
structure TurnInput where
  ctxDoneBefore : Bool
  capture : Except String String
  generate : String → Except String String
  speak : Except String Unit
  ctxDoneAfter : Bool
  now : Nat

/-- The turn loop of Start (engine.go, lines 114-128): each iteration
first checks the outer context, then runs a conversation cycle; a cycle
error is logged and the loop continues unless ctx.Err() is non-nil.
Returns the final history and whether the loop exited because of
cancellation. -/
def runLoop (maxHistorySize : Nat) (history : List ConversationEntry) :
    List TurnInput → List ConversationEntry × Bool
  | [] => (history, false)
  | t :: ts =>
    if t.ctxDoneBefore then (history, true)
    else
      match processConversationCycle maxHistorySize history t.capture t.generate t.speak t.now with
      | r =>
        match r.err with
        | some _ => if t.ctxDoneAfter then (r.history, true) else runLoop maxHistorySize r.history ts
        | none => runLoop maxHistorySize r.history ts

theorem processCycle_error_history (C : Nat) (history : List ConversationEntry)
    (capture : Except String String) (generate : String → Except String String)
    (speak : Except String Unit) (now : Nat) :
    (processConversationCycle C history capture generate speak now).err.isSome →
    (processConversationCycle C history capture generate speak now).history = history := by
  intro hf
  cases capture with
  | error e => simp [processConversationCycle]
  | ok input =>
    by_cases ht : trimSpace input = ""
    · simp [processConversationCycle, ht]
    · cases hg : generate input with
      | error e => simp [processConversationCycle, ht, hg]
      | ok resp =>
        cases speak with
        | error e => simp [processConversationCycle, ht, hg]
        | ok u =>
          exfalso
          simp [processConversationCycle, ht, hg] at hf

/-- Claim C9: a captured utterance that trims to the empty string is
treated like silence: the turn returns success immediately, invoking
neither reply generation nor speech, and leaves the history
unchanged. -/
theorem c9_whitespace_skip (C : Nat) (history : List ConversationEntry) (input : String)
    (generate : String → Except String String) (speak : Except String Unit) (now : Nat)
    (h : trimSpace input = "") :
    processConversationCycle C history (.ok input) generate speak now
      = ⟨history, none, false, false⟩ := by
  simp [processConversationCycle, h]

/-- Witness for c9_whitespace_skip: a whitespace-only utterance. -/
theorem c9_whitespace_skip_witness :
    processConversationCycle 10 [] (Except.ok " \t ") (fun _ => Except.ok "r") (Except.ok ()) 0
      = ⟨[], none, false, false⟩ :=
  c9_whitespace_skip 10 [] " \t " (fun _ => Except.ok "r") (Except.ok ()) 0 (by decide)

/-- Claim C5: when a conversation cycle fails (capture, generation or
speak), no entry is appended to the history for that turn, and the
Start loop continues with the next turn unless the outer cancellation
signal is set, in which case the engine stops. -/
theorem c5_turn_failure (C : Nat) (history : List ConversationEntry) (t : TurnInput)
    (ts : List TurnInput) (hb : t.ctxDoneBefore = false)
    (hf : (processConversationCycle C history t.capture t.generate t.speak t.now).err.isSome) :
    (processConversationCycle C history t.capture t.generate t.speak t.now).history = history ∧
    (t.ctxDoneAfter = false → runLoop C history (t :: ts) = runLoop C history ts) ∧
    (t.ctxDoneAfter = true → runLoop C history (t :: ts) = (history, true)) := by
  have hh := processCycle_error_history C history t.capture t.generate t.speak t.now hf
  obtain ⟨e, he⟩ := Option.isSome_iff_exists.mp hf
  refine ⟨hh, ?_, ?_⟩
  · intro ha
    simp [runLoop, hb, he, ha, hh]
  · intro ha
    simp [runLoop, hb, he, ha, hh]

/-- Witness for c5_turn_failure: a capture transport failure with the
context alive leaves the loop running with an unchanged history, and
the same failure with the context cancelled stops the loop. -/
theorem c5_turn_failure_witness :
    (processConversationCycle 10 [] (Except.error "net down") (fun _ => Except.ok "r")
      (Except.ok ()) 0).history = [] ∧
    runLoop 10 [] [⟨false, Except.error "net down", fun _ => Except.ok "r", Except.ok (), false, 0⟩]
      = runLoop 10 [] [] ∧
    runLoop 10 [] [⟨false, Except.error "net down", fun _ => Except.ok "r", Except.ok (), true, 0⟩]
      = ([], true) := by
  have h1 := c5_turn_failure 10 []
    ⟨false, Except.error "net down", fun _ => Except.ok "r", Except.ok (), false, 0⟩ [] rfl (by decide)
  have h2 := c5_turn_failure 10 []
    ⟨false, Except.error "net down", fun _ => Except.ok "r", Except.ok (), true, 0⟩ [] rfl (by decide)
  exact ⟨h1.1, h1.2.1 rfl, h2.2.2 rfl⟩

/-- The engine state guarded by the run and history locks: the running
flag and the conversation history. -/
structure EngineState where
  isRunning : Bool
  history : List ConversationEntry
deriving DecidableEq

/-- How a Start call can return. -/
inductive StartResult
  | alreadyRunning
  | audioInitError
  | audioOpenError
  | playerInitError
  | cancelled
deriving DecidableEq

/-- A completed Start call: the engine state at the moment Start
returned, the kind of return, and whether audioStreamer
initialization was attempted. -/
structure StartOutcome where
  state : EngineState
  result : StartResult
  audioInitCalled : Bool
deriving DecidableEq

/-- Start (engine.go, lines 80-129): reject re-entrant calls while the
running flag is set, without touching any state or collaborator;
otherwise set the flag, bring up the audio streamer and the sound
player (each failure aborting Start), then run the turn loop.  The
deferred reset of the running flag runs on every return path of the
admitted call.  none means Start has not returned (the loop is still
running because no cancellation was observed). -/
def startEngine (st : EngineState) (audioInitOk audioOpenOk playerInitOk : Bool)
    (maxHistorySize : Nat) (turns : List TurnInput) : Option StartOutcome :=
  if st.isRunning then some ⟨st, .alreadyRunning, false⟩
  else if audioInitOk = false then some ⟨⟨false, st.history⟩, .audioInitError, true⟩
  else if audioOpenOk = false then some ⟨⟨false, st.history⟩, .audioOpenError, true⟩
  else if playerInitOk = false then some ⟨⟨false, st.history⟩, .playerInitError, true⟩
  else
    match runLoop maxHistorySize st.history turns with
    | (h, true) => some ⟨⟨false, h⟩, .cancelled, true⟩
    | (_, false) => none

/-- IsRunning (engine.go, lines 313-318): read the running flag. -/
def engineIsRunning (st : EngineState) : Bool :=
  st.isRunning

/-- Claim C6: calling Start while the engine is Running returns the
already-running error immediately and changes nothing: the state
(running flag and history) is returned untouched and no collaborator
initialization is attempted. -/
theorem c6_already_running (st : EngineState) (a b c : Bool) (C : Nat) (ts : List TurnInput)
    (h : st.isRunning = true) :
    startEngine st a b c C ts = some ⟨st, .alreadyRunning, false⟩ := by
  simp [startEngine, h]

/-- Witness for c6_already_running: a running engine with one history
entry rejects Start and keeps its state. -/
theorem c6_already_running_witness :
    startEngine ⟨true, [⟨"u", "r", 0⟩]⟩ true true true 10 []
      = some ⟨⟨true, [⟨"u", "r", 0⟩]⟩, .alreadyRunning, false⟩ :=
  c6_already_running ⟨true, [⟨"u", "r", 0⟩]⟩ true true true 10 [] rfl

/-- Claim C10: every return path of an admitted Start call — the three
collaborator initialization failures and the loop exiting on context
cancellation — resets the running flag before Start returns, so
IsRunning reads false once the call is over; the only other return,
the AlreadyRunning rejection, happens precisely while another Start
call is still in progress and leaves that call's flag untouched. -/
theorem c10_flag_reset (st : EngineState) (a b c : Bool) (C : Nat) (ts : List TurnInput)
    (o : StartOutcome) (hret : startEngine st a b c C ts = some o) :
    (st.isRunning = false → engineIsRunning o.state = false) ∧
    (st.isRunning = true → o.result = .alreadyRunning ∧ engineIsRunning o.state = true) := by
  constructor
  · intro hrun
    simp only [startEngine, hrun, if_false, Bool.false_eq_true] at hret
    by_cases ha : a = false
    · rw [if_pos ha] at hret
      cases hret
      rfl
    · rw [if_neg ha] at hret
      by_cases hb : b = false
      · rw [if_pos hb] at hret
        cases hret
        rfl
      · rw [if_neg hb] at hret
        by_cases hc : c = false
        · rw [if_pos hc] at hret
          cases hret
          rfl
        · rw [if_neg hc] at hret
          rcases hl : runLoop C st.history ts with ⟨h, exited⟩
          rw [hl] at hret
          cases exited
          · simp at hret
          · simp at hret
            rw [← hret]
            rfl
  · intro hrun
    simp only [startEngine, hrun, if_true] at hret
    cases hret
    exact ⟨rfl, hrun⟩

/-- Witness for c10_flag_reset: an audio initialization failure on a
non-running engine returns with the flag reset. -/
theorem c10_flag_reset_witness :
    engineIsRunning (⟨false, []⟩ : EngineState) = false ∧
    startEngine ⟨false, []⟩ false true true 10 []
      = some ⟨⟨false, []⟩, .audioInitError, true⟩ ∧
    engineIsRunning (⟨false, []⟩ : EngineState) = false := by
  refine ⟨rfl, by decide, ?_⟩
  exact (c10_flag_reset ⟨false, []⟩ false true true 10 [] ⟨⟨false, []⟩, .audioInitError, true⟩
    (by decide)).1 rfl

/-- A store of slice backing arrays, addressed by index; GetHistory
allocates a fresh array, so aliasing between the engine's history and
the snapshots handed to callers is observable in this model. -/
abbrev SliceStore := List (List ConversationEntry)

/-- Read the array behind a slice reference. -/
def readArr (s : SliceStore) (r : Nat) : List ConversationEntry :=
  s.getD r []

/-- Overwrite the array behind a slice reference. -/
def writeArr (s : SliceStore) (r : Nat) (v : List ConversationEntry) : SliceStore :=
  s.set r v

/-- Allocate a fresh array holding the given contents and return its
reference. -/
def allocArr (s : SliceStore) (v : List ConversationEntry) : SliceStore × Nat :=
  (s ++ [v], s.length)

/-- GetHistory (engine.go, lines 295-303): make a fresh slice of the
same length, copy the history into it, and return it. -/
def getHistory (s : SliceStore) (histRef : Nat) : SliceStore × Nat :=
  allocArr s (readArr s histRef)

/-- addToHistory acting on the stored history slice (engine.go, lines
282-293). -/
def addToHistoryStore (maxHistorySize : Nat) (s : SliceStore) (histRef : Nat)
    (e : ConversationEntry) : SliceStore :=
  writeArr s histRef (addToHistory maxHistorySize (readArr s histRef) e)

/-- ClearHistory (engine.go, lines 305-311): truncate the stored
history to length zero. -/
def clearHistoryStore (s : SliceStore) (histRef : Nat) : SliceStore :=
  writeArr s histRef []

theorem readArr_alloc_new (s : SliceStore) (v : List ConversationEntry) :
    readArr (allocArr s v).1 (allocArr s v).2 = v := by
  simp [readArr, allocArr, List.getD]

theorem readArr_alloc_old (s : SliceStore) (v : List ConversationEntry) (r : Nat)
    (hr : r < s.length) :
    readArr (allocArr s v).1 r = readArr s r := by
  simp [readArr, allocArr, List.getD, List.getElem?_append_left hr]

theorem readArr_write_ne (s : SliceStore) (r w : Nat) (v : List ConversationEntry)
    (hne : w ≠ r) :
    readArr (writeArr s w v) r = readArr s r := by
  simp [readArr, writeArr, List.getD, List.getElem?_set_ne hne]

/-- Claim C7: two GetHistory snapshots with no intervening mutation are
equal, every snapshot is an order-preserving copy of the history, and
an append or clear performed after the call does not change the slice
the caller already holds. -/
theorem c7_snapshot (s : SliceStore) (histRef : Nat) (hr : histRef < s.length)
    (C : Nat) (e : ConversationEntry) :
    readArr (getHistory (getHistory s histRef).1 histRef).1 (getHistory s histRef).2
      = readArr (getHistory (getHistory s histRef).1 histRef).1
          (getHistory (getHistory s histRef).1 histRef).2 ∧
    readArr (getHistory s histRef).1 (getHistory s histRef).2 = readArr s histRef ∧
    readArr (addToHistoryStore C (getHistory s histRef).1 histRef e) (getHistory s histRef).2
      = readArr (getHistory s histRef).1 (getHistory s histRef).2 ∧
    readArr (clearHistoryStore (getHistory s histRef).1 histRef) (getHistory s histRef).2
      = readArr (getHistory s histRef).1 (getHistory s histRef).2 := by
  have hlen1 : (getHistory s histRef).1.length = s.length + 1 := by
    simp [getHistory, allocArr]
  have hsnap : (getHistory s histRef).2 = s.length := rfl
  have hne : histRef ≠ (getHistory s histRef).2 := by
    rw [hsnap]
    omega
  have hcopy : readArr (getHistory s histRef).1 (getHistory s histRef).2 = readArr s histRef :=
    readArr_alloc_new s (readArr s histRef)
  refine ⟨?_, hcopy, ?_, ?_⟩
  · have h1 : readArr (getHistory (getHistory s histRef).1 histRef).1 (getHistory s histRef).2
        = readArr (getHistory s histRef).1 (getHistory s histRef).2 :=
      readArr_alloc_old _ _ _ (by rw [hsnap, hlen1]; omega)
    have h2 : readArr (getHistory (getHistory s histRef).1 histRef).1
        (getHistory (getHistory s histRef).1 histRef).2
        = readArr (getHistory s histRef).1 histRef :=
      readArr_alloc_new _ _
    have h3 : readArr (getHistory s histRef).1 histRef = readArr s histRef :=
      readArr_alloc_old s _ histRef hr
    rw [h1, h2, h3, hcopy]
  · exact readArr_write_ne _ _ _ _ hne
  · exact readArr_write_ne _ _ _ _ hne

/-- Witness for c7_snapshot: a store holding one history array with one
entry. -/
theorem c7_snapshot_witness :
    readArr (getHistory (getHistory [[⟨"u", "r", 0⟩]] 0).1 0).1 (getHistory [[⟨"u", "r", 0⟩]] 0).2
      = readArr (getHistory (getHistory [[⟨"u", "r", 0⟩]] 0).1 0).1
          (getHistory (getHistory [[⟨"u", "r", 0⟩]] 0).1 0).2 ∧
    readArr (getHistory [[⟨"u", "r", 0⟩]] 0).1 (getHistory [[⟨"u", "r", 0⟩]] 0).2
      = readArr [[⟨"u", "r", 0⟩]] 0 ∧
    readArr (addToHistoryStore 10 (getHistory [[⟨"u", "r", 0⟩]] 0).1 0 ⟨"u2", "r2", 1⟩)
        (getHistory [[⟨"u", "r", 0⟩]] 0).2
      = readArr (getHistory [[⟨"u", "r", 0⟩]] 0).1 (getHistory [[⟨"u", "r", 0⟩]] 0).2 ∧
    readArr (clearHistoryStore (getHistory [[⟨"u", "r", 0⟩]] 0).1 0) (getHistory [[⟨"u", "r", 0⟩]] 0).2
      = readArr (getHistory [[⟨"u", "r", 0⟩]] 0).1 (getHistory [[⟨"u", "r", 0⟩]] 0).2 :=
  c7_snapshot [[⟨"u", "r", 0⟩]] 0 (by decide) 10 ⟨"u2", "r2", 1⟩

/-- Stop (engine.go, lines 320-342): close the STT client then the TTS
client, collecting each failure; with any failures present return a
single aggregate error joining all of them, otherwise return nil.  The
close outcomes are modelled as the error message each Close returned,
none for success. -/
def stopEngine (sttCloseErr ttsCloseErr : Option String) : Option String :=
  let errors :=
    (match sttCloseErr with
      | some e => ["failed to close STT client: " ++ e]
      | none => []) ++
    (match ttsCloseErr with
      | some e => ["failed to close TTS client: " ++ e]
      | none => [])
  if 0 < errors.length then
    some ("errors during shutdown: " ++ String.intercalate "; " errors)
  else none

/-- Claim C8: when closing the owned clients fails, Stop returns one
error that reports every individual close failure — one, the other, or
both joined in order — and when both closes succeed Stop returns
nil. -/
theorem c8_stop_aggregate (e1 e2 : String) :
    stopEngine none none = none ∧
    stopEngine (some e1) none
      = some ("errors during shutdown: " ++ ("failed to close STT client: " ++ e1)) ∧
    stopEngine none (some e2)
      = some ("errors during shutdown: " ++ ("failed to close TTS client: " ++ e2)) ∧
    stopEngine (some e1) (some e2)
      = some ("errors during shutdown: "
          ++ (("failed to close STT client: " ++ e1) ++ "; "
            ++ ("failed to close TTS client: " ++ e2))) :=
  ⟨rfl, rfl, rfl, rfl⟩
